import Mathlib

/-!
CIP path codec (`path.go`): a shallow embedding and its verified properties.

Go values are embedded as follows.

* A `byte` is a natural number below 256; the conversion `byte(x)` is `x % 256`.
* A `[]byte` and a Go `string` are both lists of bytes (a Go string is a byte
  sequence; `len`, `strings.Split`, `strings.Contains`, `strings.ReplaceAll`
  and `[]byte(s)` all act on those bytes).
* `uint16` and `uint32` arguments are natural numbers; the theorems bound them.
* A function returning `([]byte, error)` returns an `Outcome`, which also
  records a run-time panic (index out of range).
-/

namespace Gologix

/-! ## Go strings as byte lists -/

/-- The bytes of a string literal: its UTF-8 encoding, as Go stores it. -/
def goBytes (s : String) : List Nat :=
  (s.toList.flatMap String.utf8EncodeChar).map UInt8.toNat

/-- The base-10 rendering of a natural number (`strconv.Itoa`), as ASCII bytes. -/
def decimal (n : Nat) : List Nat :=
  (Nat.toDigits 10 n).map Char.toNat

/-- The Go expression `strings.Join(toks, ",")`. -/
def joinComma (toks : List (List Nat)) : List Nat :=
  [44].intercalate toks

/-! ## Segment taxonomy (`path.go` lines 30-81) -/

def SegmentTypePort : Nat := 0b00000000
def SegmentTypeLogical : Nat := 0b00100000
def SegmentTypeNetwork : Nat := 0b01000000
def SegmentTypeSymbolic : Nat := 0b01100000
def SegmentTypeData : Nat := 0b10000000
def SegmentTypeDataType1 : Nat := 0b10100000
def SegmentTypeDataType2 : Nat := 0b11000000

def DataTypeSimple : Nat := 0b00000000
def DataTypeANSI : Nat := 0b00010001

def LogicalTypeClassID : Nat := 0b00000000
def LogicalTypeInstanceID : Nat := 0b00000100
def LogicalTypeMemberID : Nat := 0b00001000
def LogicalTypeConnPoint : Nat := 0b00001100
def LogicalTypeAttributeID : Nat := 0b00010000
def LogicalTypeSpecial : Nat := 0b00010100
def LogicalTypeServiceID : Nat := 0b00011000

/-- The seven `LogicalType` constants, in declaration order. -/
def logicalTypes : List Nat :=
  [LogicalTypeClassID, LogicalTypeInstanceID, LogicalTypeMemberID, LogicalTypeConnPoint,
   LogicalTypeAttributeID, LogicalTypeSpecial, LogicalTypeServiceID]

/-! ## `encoding/binary` little-endian writers -/

/-- The two bytes `binary.LittleEndian.PutUint16` writes for `v`. -/
def PutUint16 (v : Nat) : List Nat :=
  [v % 256, (v >>> 8) % 256]

/-- The four bytes `binary.LittleEndian.PutUint32` writes for `v`. -/
def PutUint32 (v : Nat) : List Nat :=
  [v % 256, (v >>> 8) % 256, (v >>> 16) % 256, (v >>> 24) % 256]

/-! ## Segment encoders -/

/-- `MarshalPathData` (`path.go` lines 83-104). -/
def MarshalPathData (tp : Nat) (data : List Nat) (padded : Bool) : List Nat :=
  let io : List Nat := []
  let firstByte := SegmentTypeData ||| tp
  let io := io ++ [firstByte]
  let length := data.length % 256
  let io := io ++ [length]
  let io := io ++ data
  let io := if padded && io.length % 2 == 1 then io ++ [0] else io
  io

/-- `MarshalPathLogical` (`path.go` lines 106-142); `address` is a `uint32`. -/
def MarshalPathLogical (tp : Nat) (address : Nat) (padded : Bool) : List Nat :=
  let format : Nat :=
    if address ≤ 255 then 0
    else if address > 255 ∧ address ≤ 65535 then 1
    else 2
  let io : List Nat := []
  let firstByte := SegmentTypeLogical ||| tp ||| format
  let io := io ++ [firstByte]
  let io := if address > 255 ∧ address ≤ 65535 ∧ padded = true then io ++ [0] else io
  let io :=
    if address ≤ 255 then io ++ [address % 256]
    else if address > 255 ∧ address ≤ 65535 then io ++ PutUint16 (address % 65536)
    else io ++ PutUint32 address
  io

/-- `MarshalPathPort` (`path.go` lines 144-186); `portID` is a `uint16`. -/
def MarshalPathPort (link : List Nat) (portID : Nat) (padded : Bool) : List Nat :=
  let extendedLinkTag : Bool := decide (link.length > 1)
  let extendedPortTag : Bool := !(decide (portID < 15))
  let io : List Nat := []
  let firstByte := SegmentTypePort
  let firstByte := if extendedLinkTag then firstByte ||| 0x10 else firstByte
  let firstByte := if !extendedPortTag then firstByte ||| (portID % 256) else firstByte ||| 0xf
  let io := io ++ [firstByte]
  let io := if extendedLinkTag then io ++ [link.length % 256] else io
  let io := if extendedPortTag then io ++ PutUint16 portID else io
  let io := io ++ link
  let io := if padded && io.length % 2 == 1 then io ++ [0] else io
  io

/-! ## `strconv.Atoi` -/

/-- The two error causes of a `*strconv.NumError`. -/
inductive NumError where
  | ErrSyntax
  | ErrRange
  deriving DecidableEq, Repr

deriving instance DecidableEq for Except

/-- The width of the Go type `int`. -/
def intSize : Nat := 64

/-- The digit loop of `strconv.ParseUint(s, 10, 64)`: a byte that is not a
decimal digit is a syntax error; a value that leaves 64 bits is a range error,
reported as soon as it is reached. -/
def parseUintLoop : List Nat → Nat → Except NumError Nat
  | [], n => .ok n
  | c :: cs, n =>
    if 48 ≤ c ∧ c ≤ 57 then
      let d := c - 48
      if n ≥ (2 ^ 64 - 1) / 10 + 1 then .error .ErrRange
      else
        let n1 := n * 10 + d
        if n1 > 2 ^ 64 - 1 then .error .ErrRange
        else parseUintLoop cs n1
    else .error .ErrSyntax

/-- The function `strconv.ParseUint(s, 10, 64)`. -/
def ParseUint (s : List Nat) : Except NumError Nat :=
  if s = [] then .error .ErrSyntax else parseUintLoop s 0

/-- The function `strconv.Atoi(s)`, that is `strconv.ParseInt(s, 10, 0)`: an
optional sign, then at least one decimal digit; the value must fit an `int`. -/
def Atoi (s : List Nat) : Except NumError Int :=
  match s with
  | [] => .error .ErrSyntax
  | c :: rest =>
    let neg : Bool := decide (c = 45)
    let body := if c = 43 ∨ c = 45 then rest else s
    match ParseUint body with
    | .error e => .error e
    | .ok un =>
      let cutoff := 2 ^ (intSize - 1)
      if !neg && decide (un ≥ cutoff) then .error .ErrRange
      else if neg && decide (un > cutoff) then .error .ErrRange
      else .ok (if neg then -(un : Int) else (un : Int))

/-! ## `ParsePath` -/

/-- The errors `ParsePath` returns: the wrapped `strconv` error of line 217 and
the range error of line 220, each with the offending token. -/
inductive PathError where
  | conversion (part : List Nat) (cause : NumError)
  | outOfRange (part : List Nat)
  deriving DecidableEq, Repr

/-- How a call of a function of type `([]byte, error)` ends: it returns its two
results, or the run time panics on an index out of range. -/
inductive Outcome where
  | ret (bytes : List Nat) (err : Option PathError)
  | panic (index : Int) (length : Nat)
  deriving DecidableEq, Repr

/-- The call `strings.ReplaceAll(s, old, "")` for a one-byte `old`. -/
def ReplaceAll (s : List Nat) (old : Nat) : List Nat :=
  s.filter (fun c => c != old)

/-- The call `strings.Split(s, sep)` for a one-byte `sep`. -/
def Split (s : List Nat) (sep : Nat) : List (List Nat) :=
  s.splitOn sep

/-- The call `strings.Contains(s, sub)` for a one-byte `sub`. -/
def Contains (s : List Nat) (sub : Nat) : Bool :=
  s.contains sub

/-- The loop of `ParsePath` (`path.go` lines 199-225) over the remaining parts,
with the buffer `byte_path` built so far. -/
def parseParts : List (List Nat) → List Nat → Outcome
  | [], byte_path => .ret byte_path none
  | part :: parts, byte_path =>
    let is_ip := Contains part 46
    if is_ip then
      let last_pos : Int := (byte_path.length : Int) - 1
      if last_pos < 0 ∨ last_pos ≥ byte_path.length then .panic last_pos byte_path.length
      else
        let last_byte := byte_path.getD last_pos.toNat 0
        let byte_path := byte_path.set last_pos.toNat ((last_byte ||| (1 <<< 4)) % 256)
        let l := part.length
        let byte_path := byte_path ++ [l % 256]
        let string_bytes := part
        let byte_path := byte_path ++ string_bytes
        parseParts parts byte_path
    else
      match Atoi part with
      | .error e => .ret [] (some (.conversion part e))
      | .ok val =>
        if val < 0 ∨ val > 255 then .ret [] (some (.outOfRange part))
        else parseParts parts (byte_path ++ [(val % 256).toNat])

/-- The parts `ParsePath` iterates over: the path without spaces and square
brackets, split on commas (`path.go` lines 191-195). -/
def pathParts (path : List Nat) : List (List Nat) :=
  let path := ReplaceAll path 32
  let path := ReplaceAll path 91
  let path := ReplaceAll path 93
  Split path 44

/-- `ParsePath` (`path.go` lines 189-226). -/
def ParsePath (path : List Nat) : Outcome :=
  let parts := pathParts path
  let byte_path : List Nat := []
  parseParts parts byte_path

/-! ## `Paths` and `BuildPath` -/

/-- An `error` value, as `bytes.Buffer.Write` could return one. -/
structure GoError where
  msg : List Nat
  deriving DecidableEq, Repr

/-- A `bytes.Buffer`: the bytes written to it so far. -/
structure Buffer where
  buf : List Nat
  deriving DecidableEq, Repr

/-- The method `(*bytes.Buffer).Write`: it appends `p` and returns `len(p)` and
a nil error (its documentation: "err is always nil"). -/
def Buffer.Write (b : Buffer) (p : List Nat) : Buffer × Nat × Option GoError :=
  (⟨b.buf ++ p⟩, p.length, none)

/-- The method `(*bytes.Buffer).Bytes`. -/
def Buffer.Bytes (b : Buffer) : List Nat :=
  b.buf

/-- The loop of `Paths` (`path.go` lines 56-58) over the remaining arguments. -/
def pathsLoop : List (List Nat) → Buffer → Buffer
  | [], io => io
  | a :: rest, io => pathsLoop rest (io.Write a).1

/-- `Paths` (`path.go` lines 54-60). -/
def Paths (arg : List (List Nat)) : List Nat :=
  let io : Buffer := ⟨[]⟩
  let io := pathsLoop arg io
  io.Bytes

/-- A value of the interface `Byteable` (`path.go` lines 228-230), given by what
its method `Bytes()` returns. -/
structure Byteable where
  Bytes : List Nat
  deriving DecidableEq, Repr

/-- The loop of `BuildPath` (`path.go` lines 234-239) over the remaining
producers: a write error ends the call with `(nil, err)`. -/
def buildLoop : List Byteable → Buffer → Option Buffer × Option GoError
  | [], b => (some b, none)
  | p :: ps, b =>
    match b.Write p.Bytes with
    | (_, _, some err) => (none, some err)
    | (b1, _, none) => buildLoop ps b1

/-- `BuildPath` (`path.go` lines 232-241): the buffer and the error it returns. -/
def BuildPath (ps : List Byteable) : Option Buffer × Option GoError :=
  let b : Buffer := ⟨[]⟩
  buildLoop ps b

/-! ## Vocabulary of the specification -/

/-- A decimal digit, as an ASCII byte. -/
def isDigit (c : Nat) : Bool :=
  decide (48 ≤ c) && decide (c ≤ 57)

/-- The token without its optional leading sign. -/
def literalBody : List Nat → List Nat
  | [] => []
  | c :: rest => if c = 43 ∨ c = 45 then rest else c :: rest

/-- A well-formed base-10 integer literal: an optional sign followed by at least
one decimal digit. -/
def isIntLiteral (s : List Nat) : Bool :=
  (literalBody s != []) && (literalBody s).all isDigit

/-- The number a digit string denotes. -/
def digitsValue (ds : List Nat) : Nat :=
  ds.foldl (fun n c => n * 10 + (c - 48)) 0

/-- The integer a well-formed literal denotes. -/
def literalValue (s : List Nat) : Int :=
  if s.head? = some 45 then -(digitsValue (literalBody s) : Int)
  else (digitsValue (literalBody s) : Int)

/-- The two `DataTypes` constants, in declaration order. -/
def dataTypes : List Nat :=
  [DataTypeSimple, DataTypeANSI]

/-- The number a byte string denotes in little-endian order. -/
def leValue : List Nat → Nat
  | [] => 0
  | b :: bs => b + 256 * leValue bs

/-- The last `n` elements of a list. -/
def lastBytes (n : Nat) (xs : List Nat) : List Nat :=
  xs.drop (xs.length - n)

/-- The string `s` with every space and square bracket removed. -/
def stripPath (s : List Nat) : List Nat :=
  s.filter (fun c => c != 32 && c != 91 && c != 93)


/-! ## Helper lemmas: strings -/

theorem ReplaceAll_of_not_mem (s : List Nat) (old : Nat) (h : old ∉ s) : ReplaceAll s old = s := by
  unfold ReplaceAll
  rw [List.filter_eq_self]
  intro a ha
  simp only [bne_iff_ne, ne_eq]
  rintro rfl
  exact h ha

theorem joinComma_cons_cons (a b : List Nat) (rest : List (List Nat)) :
    joinComma (a :: b :: rest) = a ++ 44 :: joinComma (b :: rest) := by
  simp [joinComma, List.intercalate, List.intersperse]

theorem not_mem_joinComma (c : Nat) (hc : c ≠ 44) (toks : List (List Nat))
    (h : ∀ t ∈ toks, c ∉ t) : c ∉ joinComma toks := by
  induction toks with
  | nil => simp [joinComma, List.intercalate]
  | cons a rest ih =>
    cases rest with
    | nil => simpa [joinComma, List.intercalate] using h a (by simp)
    | cons b rest =>
      rw [joinComma_cons_cons]
      have h1 := h a (by simp)
      have h2 := ih (fun t ht => h t (List.mem_cons_of_mem _ ht))
      simp only [List.mem_append, List.mem_cons, not_or]
      exact ⟨h1, hc, h2⟩

theorem pathParts_joinComma (toks : List (List Nat)) (hne : toks ≠ [])
    (h : ∀ t ∈ toks, 44 ∉ t ∧ 32 ∉ t ∧ 91 ∉ t ∧ 93 ∉ t) :
    pathParts (joinComma toks) = toks := by
  unfold pathParts
  simp only
  rw [ReplaceAll_of_not_mem _ 32 (not_mem_joinComma 32 (by decide) toks (fun t ht => (h t ht).2.1)),
    ReplaceAll_of_not_mem _ 91 (not_mem_joinComma 91 (by decide) toks (fun t ht => (h t ht).2.2.1)),
    ReplaceAll_of_not_mem _ 93 (not_mem_joinComma 93 (by decide) toks (fun t ht => (h t ht).2.2.2))]
  unfold Split joinComma
  exact List.splitOn_intercalate toks 44 (fun t ht => (h t ht).1) hne

/-! ## Helper lemmas: decimal renderings -/

set_option maxRecDepth 100000 in
theorem Atoi_decimal (v : Nat) (h : v < 256) : Atoi (decimal v) = .ok (v : Int) := by
  revert v
  decide

set_option maxRecDepth 100000 in
theorem decimal_all_isDigit (v : Nat) (h : v < 256) : (decimal v).all isDigit = true := by
  revert v
  decide

theorem not_mem_of_all_isDigit (s : List Nat) (h : s.all isDigit = true) (c : Nat)
    (hc : isDigit c = false) : c ∉ s := by
  intro hmem
  rw [List.all_eq_true] at h
  rw [h c hmem] at hc
  exact Bool.noConfusion hc

theorem not_mem_decimal (v : Nat) (h : v < 256) (c : Nat) (hc : isDigit c = false) :
    c ∉ decimal v :=
  not_mem_of_all_isDigit _ (decimal_all_isDigit v h) c hc

theorem Contains_eq_false (s : List Nat) (c : Nat) (h : c ∉ s) : Contains s c = false := by
  unfold Contains
  simpa using h

theorem Contains_eq_true (s : List Nat) (c : Nat) (h : c ∈ s) : Contains s c = true := by
  unfold Contains
  simpa using h

/-! ## Helper lemmas: the loop of `ParsePath` -/

theorem parseParts_decimal (v : Nat) (h : v ≤ 255) (parts : List (List Nat)) (bp : List Nat) :
    parseParts (decimal v :: parts) bp = parseParts parts (bp ++ [v]) := by
  have hlt : v < 256 := by omega
  have hdot : Contains (decimal v) 46 = false :=
    Contains_eq_false _ _ (not_mem_decimal v hlt 46 (by decide))
  have hrange : ¬ ((v : Int) < 0 ∨ (v : Int) > 255) := by omega
  have hbyte : ((v : Int) % 256).toNat = v := by omega
  rw [parseParts]
  simp only [hdot, Atoi_decimal v hlt, hrange, hbyte, if_false, Bool.false_eq_true]

theorem parseParts_decimals (vs : List Nat) (h : ∀ v ∈ vs, v ≤ 255) (parts : List (List Nat))
    (bp : List Nat) :
    parseParts (vs.map decimal ++ parts) bp = parseParts parts (bp ++ vs) := by
  induction vs generalizing bp with
  | nil => simp
  | cons v vs ih =>
    rw [List.map_cons, List.cons_append, parseParts_decimal v (h v (by simp)),
      ih (fun w hw => h w (List.mem_cons_of_mem _ hw))]
    simp

theorem or16_lt (v : Nat) (h : v ≤ 255) : (v ||| 16) % 256 = v ||| 16 := by
  apply Nat.mod_eq_of_lt
  exact Nat.or_lt_two_pow (n := 8) (by omega) (by decide)

theorem parseParts_ip (t : List Nat) (hdot : 46 ∈ t) (parts : List (List Nat))
    (bp : List Nat) (last : Nat) :
    parseParts (t :: parts) (bp ++ [last]) =
      parseParts parts (bp ++ [(last ||| 16) % 256] ++ [t.length % 256] ++ t) := by
  have hc : Contains t 46 = true := Contains_eq_true _ _ hdot
  have hidx : ¬ ((((bp ++ [last]).length : Nat) : Int) - 1 < 0 ∨
      (((bp ++ [last]).length : Nat) : Int) - 1 ≥ ((bp ++ [last]).length : Nat)) := by
    simp only [List.length_append, List.length_singleton]
    omega
  have hpos : ((((bp ++ [last]).length : Nat) : Int) - 1).toNat = bp.length := by
    simp only [List.length_append, List.length_singleton]
    omega
  rw [parseParts]
  simp only [hc, hidx, hpos, if_true, if_false]
  congr 1
  simp [List.getD_append_right, List.set_append_right]

theorem ParsePath_eq (path : List Nat) : ParsePath path = parseParts (pathParts path) [] := rfl

theorem decimal_clean (v : Nat) (h : v ≤ 255) :
    44 ∉ decimal v ∧ 32 ∉ decimal v ∧ 91 ∉ decimal v ∧ 93 ∉ decimal v :=
  ⟨not_mem_decimal v (by omega) 44 (by decide), not_mem_decimal v (by omega) 32 (by decide),
   not_mem_decimal v (by omega) 91 (by decide), not_mem_decimal v (by omega) 93 (by decide)⟩

/-- Whatever follows, a path whose first part contains a `.` makes `ParsePath`
index the empty buffer at position `-1`: the run time panics. -/
theorem ParsePath_leading_ip (path t : List Nat) (rest : List (List Nat))
    (hparts : pathParts path = t :: rest) (hdot : 46 ∈ t) :
    ParsePath path = .panic (-1) 0 := by
  rw [ParsePath_eq, hparts, parseParts]
  simp [Contains_eq_true t 46 hdot]

/-! ## The claims -/

/-- C1: a path that begins with an IP-literal token should give an explicit
error and no bytes. On `"172.25.58.11,1,1"` the code instead reads
`byte_path[-1]` of the empty buffer: the call panics (index out of range) and
returns nothing. -/
theorem C1_ParsePath_leading_ip_panics :
    ParsePath (goBytes "172.25.58.11,1,1") = Outcome.panic (-1) 0 := by
  decide

set_option maxRecDepth 100000 in
/-- C2, as stated, fails: for a payload of 256 bytes `MarshalPathData` returns a
segment, not an error, and the length byte of that segment is 0 although 256
payload bytes follow it. -/
theorem C2_MarshalPathData_256_bytes :
    (List.replicate 256 7).length = 256 ∧
    MarshalPathData DataTypeSimple (List.replicate 256 7) false =
      0x80 :: 0 :: List.replicate 256 7 := by
  decide

/-- C2, amended: for every data sub-kind, padding flag and payload of at most 255
bytes, `MarshalPathData` returns the tag byte, then a length byte equal to the
number of payload bytes, then exactly those payload bytes, then at most one
zero pad byte. -/
theorem C2_MarshalPathData_length_byte (tp : Nat) (data : List Nat) (padded : Bool)
    (h : data.length ≤ 255) :
    ∃ pad, (pad = [] ∨ pad = [0]) ∧
      MarshalPathData tp data padded = (SegmentTypeData ||| tp) :: data.length :: (data ++ pad) := by
  have hlen : data.length % 256 = data.length := Nat.mod_eq_of_lt (by omega)
  unfold MarshalPathData
  simp only [hlen, List.nil_append, List.singleton_append, List.cons_append]
  split
  · exact ⟨[0], Or.inr rfl, by simp⟩
  · exact ⟨[], Or.inl rfl, by simp⟩

/-- The amended C2 at the three-byte ANSI payload `"abc"`, padded. -/
theorem C2_MarshalPathData_length_byte_witness :
    ∃ pad, (pad = [] ∨ pad = [0]) ∧
      MarshalPathData DataTypeANSI [0x61, 0x62, 0x63] true =
        (SegmentTypeData ||| DataTypeANSI) :: 3 :: ([0x61, 0x62, 0x63] ++ pad) :=
  C2_MarshalPathData_length_byte DataTypeANSI [0x61, 0x62, 0x63] true (by decide)

/-- C3: for numbers `v1..vn` (`n ≥ 1`, written here as `vs` followed by `vn`) and
`w1..wm`, all in 0..255, and a token `t` of 1..255 bytes that contains a `.` and
no comma, space or square bracket, `ParsePath` on `"v1,...,vn,t,w1,...,wm"`
returns no error and the bytes `v1..v(n-1)`, `vn OR 0x10`, `len(t)`, the bytes
of `t`, `w1..wm`. -/
theorem C3_ParsePath_ip_token (vs : List Nat) (vn : Nat) (t : List Nat) (ws : List Nat)
    (hvs : ∀ v ∈ vs, v ≤ 255) (hvn : vn ≤ 255) (hws : ∀ w ∈ ws, w ≤ 255)
    (hlen1 : 1 ≤ t.length) (hlen : t.length ≤ 255) (hdot : 46 ∈ t)
    (hcomma : 44 ∉ t) (hspace : 32 ∉ t) (hopen : 91 ∉ t) (hclose : 93 ∉ t) :
    ParsePath (joinComma ((vs ++ [vn]).map decimal ++ [t] ++ ws.map decimal)) =
      Outcome.ret (vs ++ [vn ||| 0x10] ++ [t.length] ++ t ++ ws) none := by
  have hv : ∀ v ∈ vs ++ [vn], v ≤ 255 := by
    intro v hmem
    rcases List.mem_append.1 hmem with h | h
    · exact hvs v h
    · rw [List.mem_singleton.1 h]; exact hvn
  have hclean : ∀ s ∈ (vs ++ [vn]).map decimal ++ [t] ++ ws.map decimal,
      44 ∉ s ∧ 32 ∉ s ∧ 91 ∉ s ∧ 93 ∉ s := by
    intro s hs
    rcases List.mem_append.1 hs with h | h
    · rcases List.mem_append.1 h with h | h
      · obtain ⟨v, hvmem, rfl⟩ := List.mem_map.1 h
        exact decimal_clean v (hv v hvmem)
      · rw [List.mem_singleton.1 h]; exact ⟨hcomma, hspace, hopen, hclose⟩
    · obtain ⟨w, hwmem, rfl⟩ := List.mem_map.1 h
      exact decimal_clean w (hws w hwmem)
  have hne : (vs ++ [vn]).map decimal ++ [t] ++ ws.map decimal ≠ [] := by simp
  have htl : t.length % 256 = t.length := Nat.mod_eq_of_lt (by omega)
  have hrest := parseParts_decimals ws hws [] (vs ++ [vn ||| 16] ++ [t.length] ++ t)
  rw [List.append_nil, parseParts] at hrest
  rw [ParsePath_eq, pathParts_joinComma _ hne hclean, List.append_assoc,
    parseParts_decimals (vs ++ [vn]) hv, List.nil_append, List.singleton_append,
    parseParts_ip t hdot, or16_lt vn hvn, htl, hrest]

/-- C3 at the first test vector of `TestPath`. -/
theorem C3_ParsePath_ip_token_witness :
    ParsePath (goBytes "1,0,2,172.25.58.11,1,1") =
      Outcome.ret [0x01, 0x00, 0x12, 0x0C, 0x31, 0x37, 0x32, 0x2E, 0x32, 0x35, 0x2E, 0x35, 0x38,
        0x2E, 0x31, 0x31, 0x01, 0x01] none :=
  C3_ParsePath_ip_token [1, 0] 2 (goBytes "172.25.58.11") [1, 1] (by decide) (by decide)
    (by decide) (by decide) (by decide) (by decide) (by decide) (by decide) (by decide)
    (by decide)

/-- C4: for every non-empty list of numbers `v1..vn`, each in 0..255, `ParsePath`
on their base-10 renderings joined by commas returns no error and exactly the
bytes `v1..vn`, with no pad byte for either parity of `n`. -/
theorem C4_ParsePath_numbers (vs : List Nat) (hne : vs ≠ []) (hvs : ∀ v ∈ vs, v ≤ 255) :
    ParsePath (joinComma (vs.map decimal)) = Outcome.ret vs none := by
  have hclean : ∀ s ∈ vs.map decimal, 44 ∉ s ∧ 32 ∉ s ∧ 91 ∉ s ∧ 93 ∉ s := by
    intro s hs
    obtain ⟨v, hvmem, rfl⟩ := List.mem_map.1 hs
    exact decimal_clean v (hvs v hvmem)
  have hne2 : vs.map decimal ≠ [] := by simpa using hne
  have h := parseParts_decimals vs hvs [] []
  rw [List.append_nil, List.nil_append, parseParts] at h
  rw [ParsePath_eq, pathParts_joinComma _ hne2 hclean, h]

/-- C4 at the second test vector of `TestPath`. -/
theorem C4_ParsePath_numbers_witness :
    ParsePath (goBytes "1,0,32,2,36,1") = Outcome.ret [0x01, 0x00, 0x20, 0x02, 0x24, 0x01] none :=
  C4_ParsePath_numbers [1, 0, 32, 2, 36, 1] (by decide) (by decide)

/-! ## Helper lemmas: `strconv.Atoi` -/

theorem foldl_digit_ge (ds : List Nat) (n : Nat) :
    n ≤ ds.foldl (fun n c => n * 10 + (c - 48)) n := by
  induction ds generalizing n with
  | nil => simp
  | cons c cs ih =>
    simp only [List.foldl_cons]
    exact le_trans (by omega) (ih (n * 10 + (c - 48)))

theorem parseUintLoop_ok (ds : List Nat) (n : Nat) (hd : ds.all isDigit = true)
    (hv : ds.foldl (fun n c => n * 10 + (c - 48)) n < 2 ^ 64) :
    parseUintLoop ds n = .ok (ds.foldl (fun n c => n * 10 + (c - 48)) n) := by
  induction ds generalizing n with
  | nil => simp [parseUintLoop]
  | cons c cs ih =>
    simp only [List.all_cons, Bool.and_eq_true] at hd
    simp only [List.foldl_cons] at hv ⊢
    have hc : 48 ≤ c ∧ c ≤ 57 := by
      have := hd.1
      simpa [isDigit] using this
    have hge := foldl_digit_ge cs (n * 10 + (c - 48))
    have h1 : ¬ (n ≥ (2 ^ 64 - 1) / 10 + 1) := by
      norm_num at hv hge ⊢
      omega
    have h2 : ¬ (n * 10 + (c - 48) > 2 ^ 64 - 1) := by
      norm_num at hv hge ⊢
      omega
    rw [parseUintLoop]
    simp only [hc, h1, h2, and_self, if_true, if_false]
    exact ih _ hd.2 hv

theorem parseUintLoop_error (ds : List Nat) (n : Nat) (hd : ds.all isDigit = false) :
    ∃ e, parseUintLoop ds n = .error e := by
  induction ds generalizing n with
  | nil => simp at hd
  | cons c cs ih =>
    rw [parseUintLoop]
    by_cases hc : 48 ≤ c ∧ c ≤ 57
    · have hcs : cs.all isDigit = false := by
        have hcd : isDigit c = true := by simpa [isDigit] using hc
        rw [List.all_cons, hcd, Bool.true_and] at hd
        exact hd
      simp only [hc, and_self, if_true]
      split
      · exact ⟨_, rfl⟩
      · split
        · exact ⟨_, rfl⟩
        · exact ih _ hcs
    · rw [if_neg hc]
      exact ⟨_, rfl⟩

theorem Atoi_of_literal (s : List Nat) (hlit : isIntLiteral s = true)
    (hlo : -(2 ^ 63 : Int) ≤ literalValue s) (hhi : literalValue s < 2 ^ 63) :
    Atoi s = .ok (literalValue s) := by
  cases s with
  | nil => simp [isIntLiteral, literalBody] at hlit
  | cons c rest =>
    simp only [isIntLiteral, Bool.and_eq_true, bne_iff_ne, ne_eq] at hlit
    obtain ⟨hne, hdig⟩ := hlit
    have hbody : literalBody (c :: rest) = if c = 43 ∨ c = 45 then rest else c :: rest := rfl
    simp only [literalValue, List.head?_cons, Option.some.injEq] at hlo hhi ⊢
    rw [hbody] at hne hdig hlo hhi ⊢
    have hbound : digitsValue (if c = 43 ∨ c = 45 then rest else c :: rest) < 2 ^ 64 := by
      split at hlo <;> split at hhi <;> omega
    have hpu : ParseUint (if c = 43 ∨ c = 45 then rest else c :: rest) =
        .ok (digitsValue (if c = 43 ∨ c = 45 then rest else c :: rest)) := by
      unfold ParseUint
      rw [if_neg hne]
      exact parseUintLoop_ok _ 0 hdig hbound
    unfold Atoi
    simp only [hpu, intSize]
    by_cases hneg : c = 45
    · simp only [hneg, if_true, decide_True, Bool.not_true, Bool.false_and, Bool.true_and,
        Bool.false_eq_true, if_false, decide_eq_true_eq] at hlo hhi ⊢
      rw [if_neg (by omega)]
    · simp only [hneg, if_false, decide_False, Bool.not_false, Bool.false_and, Bool.true_and,
        Bool.false_eq_true, decide_eq_true_eq] at hlo hhi ⊢
      rw [if_neg (by omega)]

theorem Atoi_error_of_not_literal (s : List Nat) (hlit : isIntLiteral s = false) :
    ∃ e, Atoi s = .error e := by
  cases s with
  | nil => exact ⟨_, rfl⟩
  | cons c rest =>
    have hbody : literalBody (c :: rest) = if c = 43 ∨ c = 45 then rest else c :: rest := rfl
    simp only [isIntLiteral, hbody, Bool.and_eq_false_iff, bne_eq_false_iff_eq] at hlit
    have hpu : ∃ e, ParseUint (if c = 43 ∨ c = 45 then rest else c :: rest) = .error e := by
      generalize (if c = 43 ∨ c = 45 then rest else c :: rest) = body at hlit
      unfold ParseUint
      rcases hlit with h | h
      · rw [if_pos h]; exact ⟨_, rfl⟩
      · split
        · exact ⟨_, rfl⟩
        · exact parseUintLoop_error _ 0 h
    obtain ⟨e, he⟩ := hpu
    unfold Atoi
    simp only [he]
    exact ⟨_, rfl⟩

theorem not_dot_of_literal (s : List Nat) (hlit : isIntLiteral s = true) : 46 ∉ s := by
  cases s with
  | nil => simp
  | cons c rest =>
    have hbody : literalBody (c :: rest) = if c = 43 ∨ c = 45 then rest else c :: rest := rfl
    simp only [isIntLiteral, hbody, Bool.and_eq_true] at hlit
    obtain ⟨_, hdig⟩ := hlit
    by_cases hs : c = 43 ∨ c = 45
    · rw [if_pos hs] at hdig
      have hrest := not_mem_of_all_isDigit rest hdig 46 (by decide)
      simp only [List.mem_cons, not_or]
      exact ⟨by omega, hrest⟩
    · rw [if_neg hs] at hdig
      exact not_mem_of_all_isDigit _ hdig 46 (by decide)

theorem parseParts_append (pre rest : List (List Nat)) (bp acc : List Nat)
    (h : parseParts pre bp = .ret acc none) :
    parseParts (pre ++ rest) bp = parseParts rest acc := by
  induction pre generalizing bp with
  | nil =>
    rw [parseParts] at h
    cases h
    rfl
  | cons p ps ih =>
    rw [List.cons_append, parseParts]
    rw [parseParts] at h
    simp only at h ⊢
    split
    · rename_i hip
      rw [if_pos hip] at h
      split
      · rename_i hidx
        rw [if_pos hidx] at h
        cases h
      · rename_i hidx
        rw [if_neg hidx] at h
        exact ih _ h
    · rename_i hip
      rw [if_neg hip] at h
      split
      · rename_i e he
        rw [he] at h
        cases h
      · rename_i val hval
        rw [hval] at h
        simp only at h ⊢
        split
        · rename_i hr
          rw [if_pos hr] at h
          cases h
        · rename_i hr
          rw [if_neg hr] at h
          exact ih _ h

set_option maxRecDepth 100000 in
/-- C5, as stated, fails: the token `"99999999999999999999"` is a well-formed
base-10 literal whose value lies outside 0..255, yet `ParsePath` returns the
conversion error (wrapping the range error of `strconv.Atoi`), not the
"number out of range" error. -/
theorem C5_ParsePath_huge_literal :
    isIntLiteral (goBytes "99999999999999999999") = true ∧
    literalValue (goBytes "99999999999999999999") = 99999999999999999999 ∧
    ParsePath (goBytes "99999999999999999999") =
      Outcome.ret [] (some (PathError.conversion (goBytes "99999999999999999999")
        NumError.ErrRange)) := by
  decide

/-- C5, amended: when the parts before a part `tok` are consumed without error
and `tok` is a well-formed base-10 integer literal whose value lies outside
0..255 and fits a Go `int` (from `-2^63` to `2^63 - 1`), `ParsePath` returns the
"number out of range" error for `tok`, and no bytes. -/
theorem C5_ParsePath_range_error (path : List Nat) (pre post : List (List Nat))
    (tok acc : List Nat)
    (hparts : pathParts path = pre ++ tok :: post)
    (hpre : parseParts pre [] = Outcome.ret acc none)
    (hlit : isIntLiteral tok = true)
    (hout : literalValue tok < 0 ∨ 255 < literalValue tok)
    (hlo : -(2 ^ 63 : Int) ≤ literalValue tok) (hhi : literalValue tok < 2 ^ 63) :
    ParsePath path = Outcome.ret [] (some (PathError.outOfRange tok)) := by
  have hdot : Contains tok 46 = false := Contains_eq_false _ _ (not_dot_of_literal tok hlit)
  have hrange : literalValue tok < 0 ∨ literalValue tok > 255 := hout
  rw [ParsePath_eq, hparts, parseParts_append pre (tok :: post) [] acc hpre, parseParts]
  simp only [hdot, Atoi_of_literal tok hlit hlo hhi, hrange, if_true, if_false,
    Bool.false_eq_true]

/-- The amended C5 at the token `"256"`. -/
theorem C5_ParsePath_range_error_witness :
    ParsePath (goBytes "256") = Outcome.ret [] (some (PathError.outOfRange (goBytes "256"))) :=
  C5_ParsePath_range_error (goBytes "256") [] [] (goBytes "256") [] (by decide) (by decide)
    (by decide) (by decide) (by decide) (by decide)

/-- C6: when the parts before a dot-free part `tok` are consumed without error
and `tok` is not a well-formed base-10 integer literal, `ParsePath` returns the
conversion error for `tok`, and no bytes. -/
theorem C6_ParsePath_conversion_error (path : List Nat) (pre post : List (List Nat))
    (tok acc : List Nat)
    (hparts : pathParts path = pre ++ tok :: post)
    (hpre : parseParts pre [] = Outcome.ret acc none)
    (hdot : 46 ∉ tok)
    (hlit : isIntLiteral tok = false) :
    ∃ cause, ParsePath path = Outcome.ret [] (some (PathError.conversion tok cause)) := by
  have hc : Contains tok 46 = false := Contains_eq_false _ _ hdot
  obtain ⟨e, he⟩ := Atoi_error_of_not_literal tok hlit
  refine ⟨e, ?_⟩
  rw [ParsePath_eq, hparts, parseParts_append pre (tok :: post) [] acc hpre, parseParts]
  simp only [hc, he, if_false, Bool.false_eq_true]

/-- C6 at the token `"abc"` between two valid parts. -/
theorem C6_ParsePath_conversion_error_witness :
    ∃ cause, ParsePath (goBytes "1,abc,2") =
      Outcome.ret [] (some (PathError.conversion (goBytes "abc") cause)) :=
  C6_ParsePath_conversion_error (goBytes "1,abc,2") [goBytes "1"] [goBytes "2"] (goBytes "abc")
    [1] (by decide) (by decide) (by decide) (by decide)

/-- C7: for every logical sub-kind `tp` and address `a` with `256 ≤ a ≤ 65535`,
`MarshalPathLogical tp a false` is the 3 bytes `[0x20 OR tp OR 1, a mod 256,
a div 256]` and `MarshalPathLogical tp a true` is the 4 bytes
`[0x20 OR tp OR 1, 0x00, a mod 256, a div 256]`: the zero pad follows the tag
byte and precedes the little-endian value. -/
theorem C7_MarshalPathLogical_16bit (tp a : Nat) (hlo : 256 ≤ a) (hhi : a ≤ 65535) :
    MarshalPathLogical tp a false = [0x20 ||| tp ||| 1, a % 256, a / 256] ∧
    MarshalPathLogical tp a true = [0x20 ||| tp ||| 1, 0x00, a % 256, a / 256] := by
  have h1 : ¬ a ≤ 255 := by omega
  have h2 : a > 255 ∧ a ≤ 65535 := ⟨by omega, hhi⟩
  have h3 : a % 65536 = a := Nat.mod_eq_of_lt (by omega)
  have h4 : (a >>> 8) % 256 = a / 256 := by
    rw [Nat.shiftRight_eq_div_pow]
    exact Nat.mod_eq_of_lt (by omega)
  constructor <;>
    simp [MarshalPathLogical, PutUint16, SegmentTypeLogical, h1, h2, h3, h4]

/-- C7 at instance address 300. -/
theorem C7_MarshalPathLogical_16bit_witness :
    MarshalPathLogical LogicalTypeInstanceID 300 false =
      [0x20 ||| LogicalTypeInstanceID ||| 1, 300 % 256, 300 / 256] ∧
    MarshalPathLogical LogicalTypeInstanceID 300 true =
      [0x20 ||| LogicalTypeInstanceID ||| 1, 0x00, 300 % 256, 300 / 256] :=
  C7_MarshalPathLogical_16bit LogicalTypeInstanceID 300 (by decide) (by decide)

/-- C8: for every logical sub-kind `tp`, padding flag and address `a ≤ 255`,
`MarshalPathLogical tp a padded` is the 2 bytes `[0x20 OR tp, a]`; and for each
of the seven `LogicalType` constants the two low (format) bits of that tag byte
are 0. -/
theorem C8_MarshalPathLogical_8bit (tp a : Nat) (padded : Bool) (ha : a ≤ 255) :
    MarshalPathLogical tp a padded = [0x20 ||| tp, a] ∧
    ∀ t ∈ logicalTypes, ∃ tag, MarshalPathLogical t a padded = [tag, a] ∧ tag &&& 0x03 = 0 := by
  have h1 : ¬ (a > 255 ∧ a ≤ 65535 ∧ padded = true) := by omega
  have h2 : a % 256 = a := Nat.mod_eq_of_lt (by omega)
  have hform : ∀ t, MarshalPathLogical t a padded = [0x20 ||| t, a] := by
    intro t
    simp [MarshalPathLogical, SegmentTypeLogical, ha, h1, h2]
  refine ⟨hform tp, ?_⟩
  intro t ht
  refine ⟨0x20 ||| t, hform t, ?_⟩
  revert t
  decide

/-- C8 at class address 6. -/
theorem C8_MarshalPathLogical_8bit_witness :
    MarshalPathLogical LogicalTypeClassID 6 true = [0x20 ||| LogicalTypeClassID, 6] ∧
    ∀ t ∈ logicalTypes, ∃ tag, MarshalPathLogical t 6 true = [tag, 6] ∧ tag &&& 0x03 = 0 :=
  C8_MarshalPathLogical_8bit LogicalTypeClassID 6 true (by decide)

/-- C9: for every logical sub-kind `tp` and 32-bit address `a > 65535`,
`MarshalPathLogical tp a padded` is the 5 bytes `[0x20 OR tp OR 2, b0, b1, b2,
b3]` with `b0..b3` the little-endian bytes of `a`, and the result is the same
for `padded = true` and `padded = false`. -/
theorem C9_MarshalPathLogical_32bit (tp a : Nat) (padded : Bool) (hlo : 65535 < a)
    (hhi : a < 2 ^ 32) :
    MarshalPathLogical tp a padded =
      [0x20 ||| tp ||| 2, a % 256, a / 256 % 256, a / 65536 % 256, a / 16777216] ∧
    MarshalPathLogical tp a true = MarshalPathLogical tp a false := by
  have h1 : ¬ a ≤ 255 := by omega
  have h2 : ¬ (a > 255 ∧ a ≤ 65535) := by omega
  have h3 : ∀ p : Bool, ¬ (a > 255 ∧ a ≤ 65535 ∧ p = true) := by intro p; omega
  have h4 : (a >>> 24) % 256 = a / 16777216 := by
    rw [Nat.shiftRight_eq_div_pow]
    exact Nat.mod_eq_of_lt (by omega)
  have h5 : a >>> 8 = a / 256 := by rw [Nat.shiftRight_eq_div_pow]
  have h6 : a >>> 16 = a / 65536 := by rw [Nat.shiftRight_eq_div_pow]
  have hform : ∀ p : Bool, MarshalPathLogical tp a p =
      [0x20 ||| tp ||| 2, a % 256, a / 256 % 256, a / 65536 % 256, a / 16777216] := by
    intro p
    simp [MarshalPathLogical, PutUint32, SegmentTypeLogical, h1, h2, h3 p, h4, h5, h6]
  exact ⟨hform padded, by rw [hform true, hform false]⟩

/-- C9 at instance address 70000. -/
theorem C9_MarshalPathLogical_32bit_witness :
    MarshalPathLogical LogicalTypeInstanceID 70000 true =
      [0x20 ||| LogicalTypeInstanceID ||| 2, 70000 % 256, 70000 / 256 % 256,
        70000 / 65536 % 256, 70000 / 16777216] ∧
    MarshalPathLogical LogicalTypeInstanceID 70000 true =
      MarshalPathLogical LogicalTypeInstanceID 70000 false :=
  C9_MarshalPathLogical_32bit LogicalTypeInstanceID 70000 true (by decide) (by decide)

/-- C10: for every link of at most 255 bytes, every 16-bit `portID` and every
padding flag, `MarshalPathPort link portID padded` is, in this order: the tag
byte `(0x10 if len(link) > 1) OR (portID if portID < 15, else 0x0F)`; the byte
`len(link)` exactly when `len(link) > 1`; the two little-endian bytes of
`portID` exactly when `portID ≥ 15`; the link bytes; and one trailing `0x00`
exactly when `padded` is true and the length so far is odd. -/
theorem C10_MarshalPathPort_layout (link : List Nat) (portID : Nat) (padded : Bool)
    (hlink : link.length ≤ 255) (hport : portID < 65536) :
    MarshalPathPort link portID padded =
      ([(if link.length > 1 then 0x10 else 0) ||| (if portID < 15 then portID else 0x0F)]
        ++ (if link.length > 1 then [link.length] else [])
        ++ (if portID ≥ 15 then [portID % 256, portID / 256] else [])
        ++ link)
      ++ (if padded = true ∧
            ([(if link.length > 1 then 0x10 else 0) ||| (if portID < 15 then portID else 0x0F)]
              ++ (if link.length > 1 then [link.length] else [])
              ++ (if portID ≥ 15 then [portID % 256, portID / 256] else [])
              ++ link).length % 2 = 1
          then [0] else []) := by
  have hl : link.length % 256 = link.length := Nat.mod_eq_of_lt (by omega)
  have hp : (portID >>> 8) % 256 = portID / 256 := by
    rw [Nat.shiftRight_eq_div_pow]
    exact Nat.mod_eq_of_lt (by omega)
  unfold MarshalPathPort
  by_cases h1 : link.length > 1 <;> by_cases h2 : portID < 15
  · have hpm : portID % 256 = portID := Nat.mod_eq_of_lt (by omega)
    have h3 : ¬ 15 ≤ portID := by omega
    cases padded
    · simp [PutUint16, SegmentTypePort, h1, h2, h3, hl, hp, hpm]
    · simp only [PutUint16, SegmentTypePort, h1, h2, h3, hl, hp, hpm]
      by_cases hpar : (link.length + 1 + 1) % 2 = 1 <;> simp [hpar]
  · have h3 : 15 ≤ portID := by omega
    cases padded
    · simp [PutUint16, SegmentTypePort, h1, h2, h3, hl, hp]
    · simp only [PutUint16, SegmentTypePort, h1, h2, h3, hl, hp]
      by_cases hpar : (link.length + 1 + 1 + 1 + 1) % 2 = 1 <;> simp [hpar]
  · have hpm : portID % 256 = portID := Nat.mod_eq_of_lt (by omega)
    have h3 : ¬ 15 ≤ portID := by omega
    cases padded
    · simp [PutUint16, SegmentTypePort, h1, h2, h3, hl, hp, hpm]
    · simp only [PutUint16, SegmentTypePort, h1, h2, h3, hl, hp, hpm]
      by_cases hpar : (link.length + 1) % 2 = 1 <;> simp [hpar]
  · have h3 : 15 ≤ portID := by omega
    cases padded
    · simp [PutUint16, SegmentTypePort, h1, h2, h3, hl, hp]
    · simp only [PutUint16, SegmentTypePort, h1, h2, h3, hl, hp]
      by_cases hpar : (link.length + 1 + 1 + 1) % 2 = 1 <;> simp [hpar]

/-- C10 at a three-byte link on port 300, padded. -/
theorem C10_MarshalPathPort_layout_witness :
    MarshalPathPort [1, 2, 3] 300 true = [0x1F, 3, 44, 1, 1, 2, 3, 0] :=
  C10_MarshalPathPort_layout [1, 2, 3] 300 true (by decide) (by decide)

/-! ## Further evaluations of `ParsePath` -/

/-- The token `"-1"` is range-checked after conversion: "number out of range". -/
theorem ParsePath_minus_one :
    ParsePath (goBytes "-1") = Outcome.ret [] (some (PathError.outOfRange (goBytes "-1"))) := by
  decide

/-- The empty string splits into one empty part, which `strconv.Atoi` rejects. -/
theorem ParsePath_empty_string :
    ParsePath (goBytes "") =
      Outcome.ret [] (some (PathError.conversion [] NumError.ErrSyntax)) := by
  decide

/-- A doubled comma yields an empty part, which `strconv.Atoi` rejects. -/
theorem ParsePath_doubled_comma :
    ParsePath (goBytes "1,,2") =
      Outcome.ret [] (some (PathError.conversion [] NumError.ErrSyntax)) := by
  decide

/-- Spaces and square brackets are dropped before the path is split. -/
theorem ParsePath_bracketed :
    ParsePath (goBytes "[1, 0, 32, 2, 36, 1]") =
      Outcome.ret [0x01, 0x00, 0x20, 0x02, 0x24, 0x01] none := by
  decide

/-! ## Helper lemmas: buffers -/

theorem pathsLoop_buf (arg : List (List Nat)) (io : Buffer) :
    (pathsLoop arg io).buf = io.buf ++ arg.flatten := by
  induction arg generalizing io with
  | nil => simp [pathsLoop]
  | cons a rest ih => simp [pathsLoop, Buffer.Write, ih]

theorem buildLoop_eq (ps : List Byteable) (b : Buffer) :
    buildLoop ps b = (some ⟨b.buf ++ (ps.map Byteable.Bytes).flatten⟩, none) := by
  induction ps generalizing b with
  | nil => simp [buildLoop]
  | cons p ps ih => simp [buildLoop, Buffer.Write, ih]

theorem Paths_eq_flatten (arg : List (List Nat)) : Paths arg = arg.flatten := by
  simp [Paths, Buffer.Bytes, pathsLoop_buf]

/-- The trailing pad of the data and port encoders leaves an even length. -/
theorem pad_length_even (xs : List Nat) :
    (if (true && (xs.length % 2 == 1)) = true then xs ++ [0] else xs).length % 2 = 0 := by
  by_cases h : xs.length % 2 = 1
  · simp [h]
    omega
  · simp [h]
    omega

/-! ## The claims, continued -/

set_option maxRecDepth 100000 in
/-- C11, as stated, fails: for a link of 256 bytes `MarshalPathPort` emits the
byte 0 right after the tag byte, and then all 256 link bytes. -/
theorem C11_MarshalPathPort_256_byte_link :
    (List.replicate 256 7).length = 256 ∧
    MarshalPathPort (List.replicate 256 7) 1 false = 0x11 :: 0 :: List.replicate 256 7 := by
  decide

/-- C11, amended: for every link of 2 to 255 bytes, every `portID` and every
padding flag, the byte `MarshalPathPort` emits right after the tag byte equals
the number of link bytes, and exactly those link bytes are emitted after the
optional two port bytes and before the optional pad byte. -/
theorem C11_MarshalPathPort_link_length (link : List Nat) (portID : Nat) (padded : Bool)
    (hlo : 1 < link.length) (hhi : link.length ≤ 255) :
    ∃ tag port pad, (port = [] ∨ port = PutUint16 portID) ∧ (pad = [] ∨ pad = [0]) ∧
      MarshalPathPort link portID padded = tag :: link.length :: (port ++ link ++ pad) := by
  have hl : link.length % 256 = link.length := Nat.mod_eq_of_lt (by omega)
  have h1 : link.length > 1 := hlo
  by_cases h2 : portID < 15
  · by_cases hpar : padded = true ∧ (link.length + 1 + 1) % 2 = 1
    · refine ⟨SegmentTypePort ||| 0x10 ||| (portID % 256), [], [0], Or.inl rfl, Or.inr rfl, ?_⟩
      simp [MarshalPathPort, h1, h2, hl, hpar.1, hpar.2]
    · refine ⟨SegmentTypePort ||| 0x10 ||| (portID % 256), [], [], Or.inl rfl, Or.inl rfl, ?_⟩
      simp only [not_and] at hpar
      cases padded <;> simp_all [MarshalPathPort]
  · by_cases hpar : padded = true ∧ (link.length + 1 + 1 + 1 + 1) % 2 = 1
    · refine ⟨SegmentTypePort ||| 0x10 ||| 0xf, PutUint16 portID, [0], Or.inr rfl, Or.inr rfl, ?_⟩
      simp [MarshalPathPort, PutUint16, h1, h2, hl, hpar.1, hpar.2]
    · refine ⟨SegmentTypePort ||| 0x10 ||| 0xf, PutUint16 portID, [], Or.inr rfl, Or.inl rfl, ?_⟩
      simp only [not_and] at hpar
      cases padded <;> simp_all [MarshalPathPort, PutUint16]

/-- The amended C11 at the twelve-byte link `"172.25.58.11"` on port 2. -/
theorem C11_MarshalPathPort_link_length_witness :
    ∃ tag port pad, (port = [] ∨ port = PutUint16 2) ∧ (pad = [] ∨ pad = [0]) ∧
      MarshalPathPort (goBytes "172.25.58.11") 2 false =
        tag :: 12 :: (port ++ goBytes "172.25.58.11" ++ pad) :=
  C11_MarshalPathPort_link_length (goBytes "172.25.58.11") 2 false (by decide) (by decide)

/-- C12: for every data sub-kind `tp`, every payload of at most 255 bytes and
every padding flag, `MarshalPathData tp data padded` is `0x80 OR tp`, then
`len(data)`, then the payload, then one `0x00` exactly when `padded` is true and
`len(data)` is odd; with `tp = DataTypeANSI` the tag byte is `0x91`. -/
theorem C12_MarshalPathData_layout (tp : Nat) (data : List Nat) (padded : Bool)
    (h : data.length ≤ 255) :
    MarshalPathData tp data padded =
      [0x80 ||| tp, data.length] ++ data ++
        (if padded = true ∧ data.length % 2 = 1 then [0] else []) ∧
    ∃ rest, MarshalPathData DataTypeANSI data padded = 0x91 :: rest := by
  have hlen : data.length % 256 = data.length := Nat.mod_eq_of_lt (by omega)
  have hform : ∀ t, MarshalPathData t data padded =
      [0x80 ||| t, data.length] ++ data ++
        (if padded = true ∧ data.length % 2 = 1 then [0] else []) := by
    intro t
    unfold MarshalPathData
    cases padded
    · simp [SegmentTypeData, hlen]
    · simp only [SegmentTypeData, hlen]
      by_cases hpar : data.length % 2 = 1
      · have : (data.length + 1 + 1) % 2 = 1 := by omega
        simp [hpar, this]
      · have : ¬ (data.length + 1 + 1) % 2 = 1 := by omega
        simp [hpar, this]
  refine ⟨hform tp, ?_⟩
  rw [hform DataTypeANSI]
  exact ⟨_, rfl⟩

/-- C12 at the three-byte ANSI payload `"abc"`, padded. -/
theorem C12_MarshalPathData_layout_witness :
    MarshalPathData DataTypeANSI [0x61, 0x62, 0x63] true =
      [0x80 ||| DataTypeANSI, 3] ++ [0x61, 0x62, 0x63] ++
        (if true = true ∧ [0x61, 0x62, 0x63].length % 2 = 1 then [0] else []) ∧
    ∃ rest, MarshalPathData DataTypeANSI [0x61, 0x62, 0x63] true = 0x91 :: rest :=
  C12_MarshalPathData_layout DataTypeANSI [0x61, 0x62, 0x63] true (by decide)

/-- C13: for every finite sequence of byte-producers `ps`, the empty one
included, `BuildPath ps` returns no error and a buffer whose contents are the
concatenation of `ps[0].Bytes()`, `ps[1].Bytes()`, ... in order. -/
theorem C13_BuildPath_concat (ps : List Byteable) :
    BuildPath ps = (some ⟨(ps.map Byteable.Bytes).flatten⟩, none) := by
  simp [BuildPath, buildLoop_eq]

/-- C14: for every two sequences of byte-producers `xs` and `ys`, each of
`BuildPath (xs ++ ys)`, `BuildPath xs` and `BuildPath ys` returns a buffer and
no error, and the bytes of the first are the bytes of the second followed by
the bytes of the third. -/
theorem C14_BuildPath_append (xs ys : List Byteable) :
    ∃ b bx bys, BuildPath (xs ++ ys) = (some b, none) ∧ BuildPath xs = (some bx, none) ∧
      BuildPath ys = (some bys, none) ∧ b.Bytes = bx.Bytes ++ bys.Bytes := by
  refine ⟨⟨[] ++ ((xs ++ ys).map Byteable.Bytes).flatten⟩,
    ⟨[] ++ (xs.map Byteable.Bytes).flatten⟩, ⟨[] ++ (ys.map Byteable.Bytes).flatten⟩,
    ?_, ?_, ?_, ?_⟩
  · exact buildLoop_eq (xs ++ ys) ⟨[]⟩
  · exact buildLoop_eq xs ⟨[]⟩
  · exact buildLoop_eq ys ⟨[]⟩
  · simp [Buffer.Bytes]

/-- C16: with `padded = true` the output of `MarshalPathData` has even length
for every sub-kind and payload, and the output of `MarshalPathPort` has even
length for every link and `portID`. -/
theorem C16_padded_length_even (tp : Nat) (data link : List Nat) (portID : Nat) :
    (MarshalPathData tp data true).length % 2 = 0 ∧
    (MarshalPathPort link portID true).length % 2 = 0 := by
  exact ⟨pad_length_even _, pad_length_even _⟩

/-- C20: `Paths` returns the concatenation of its arguments, in order, for
every finite sequence of byte slices; and for every sequence of byte-producers
`ps`, `BuildPath ps` returns a buffer whose bytes are `Paths` applied to the
`Bytes()` of each element of `ps`. -/
theorem C20_Paths_concat_agrees_BuildPath :
    (∀ arg : List (List Nat), Paths arg = arg.flatten) ∧
    (∀ ps : List Byteable, ∃ b, BuildPath ps = (some b, none) ∧
      b.Bytes = Paths (ps.map Byteable.Bytes)) := by
  refine ⟨Paths_eq_flatten, ?_⟩
  intro ps
  refine ⟨_, buildLoop_eq ps ⟨[]⟩, ?_⟩
  simp [Buffer.Bytes, Paths_eq_flatten]

/-- The test vector of `TestPathBuild`: the connection manager class followed by
instance 1. -/
theorem BuildPath_connection_manager_instance :
    BuildPath [⟨[0x20, 0x06]⟩, ⟨[0x24, 0x01]⟩] = (some ⟨[0x20, 0x06, 0x24, 0x01]⟩, none) := by
  decide

/-! ## Helper lemmas: tag bytes -/

theorem joinComma_pair (a b : List Nat) : joinComma [a, b] = a ++ [44] ++ b := by
  simp [joinComma, List.intercalate, List.intersperse]

theorem port_tag_plain (p : Nat) (hp : p ≤ 14) : SegmentTypePort ||| p % 256 = p := by
  revert p
  decide

theorem port_tag_extended (p : Nat) (hp : p ≤ 14) :
    SegmentTypePort ||| 0x10 ||| p % 256 = p ||| 16 := by
  revert p
  decide

/-- The format code `MarshalPathLogical` selects for an address. -/
theorem MarshalPathLogical_head (tp a : Nat) (padded : Bool) :
    ∃ rest, MarshalPathLogical tp a padded =
      (SegmentTypeLogical ||| tp |||
        (if a ≤ 255 then 0 else if a > 255 ∧ a ≤ 65535 then 1 else 2)) :: rest := by
  unfold MarshalPathLogical
  simp only [List.nil_append, List.singleton_append]
  split <;> split <;> first | exact ⟨_, rfl⟩ | (split <;> exact ⟨_, rfl⟩)

theorem logical_tag_bits (tp : Nat) (htp : tp ∈ logicalTypes) (f : Nat) (hf : f ≤ 2) :
    (SegmentTypeLogical ||| tp ||| f) &&& 0x03 = f ∧
    (SegmentTypeLogical ||| tp ||| f) &&& 0x1C = tp ∧
    (SegmentTypeLogical ||| tp ||| f) &&& 0xE0 = 0x20 := by
  have key : ∀ t ∈ logicalTypes, ∀ g, g < 3 →
      (SegmentTypeLogical ||| t ||| g) &&& 0x03 = g ∧
      (SegmentTypeLogical ||| t ||| g) &&& 0x1C = t ∧
      (SegmentTypeLogical ||| t ||| g) &&& 0xE0 = 0x20 := by
    decide
  exact key tp htp f (by omega)

theorem MarshalPathLogical_value (tp a : Nat) (padded : Bool) (ha : a < 2 ^ 32) :
    leValue (lastBytes (2 ^ (if a ≤ 255 then 0 else if a > 255 ∧ a ≤ 65535 then 1 else 2))
      (MarshalPathLogical tp a padded)) = a := by
  by_cases h1 : a ≤ 255
  · have hp : ¬ (a > 255 ∧ a ≤ 65535 ∧ padded = true) := by omega
    have hm : a % 256 = a := Nat.mod_eq_of_lt (by omega)
    simp [MarshalPathLogical, h1, hp, hm, lastBytes, leValue]
  · by_cases h2 : a > 255 ∧ a ≤ 65535
    · have hm : a % 65536 = a := Nat.mod_eq_of_lt (by omega)
      have hs : a >>> 8 = a / 256 := by rw [Nat.shiftRight_eq_div_pow]
      cases padded <;>
        simp [MarshalPathLogical, PutUint16, h1, h2, hm, hs, lastBytes, leValue] <;> omega
    · have hp : ¬ (a > 255 ∧ a ≤ 65535 ∧ padded = true) := by omega
      have hs8 : a >>> 8 = a / 256 := by rw [Nat.shiftRight_eq_div_pow]
      have hs16 : a >>> 16 = a / 65536 := by rw [Nat.shiftRight_eq_div_pow]
      have hs24 : a >>> 24 = a / 16777216 := by rw [Nat.shiftRight_eq_div_pow]
      simp [MarshalPathLogical, PutUint32, h1, h2, hp, hs8, hs16, hs24, lastBytes, leValue]
      omega

theorem MarshalPathPort_head (link : List Nat) (portID : Nat) (padded : Bool) :
    ∃ rest, MarshalPathPort link portID padded =
      (if portID < 15 then
        (if link.length > 1 then SegmentTypePort ||| 0x10 else SegmentTypePort) ||| portID % 256
       else (if link.length > 1 then SegmentTypePort ||| 0x10 else SegmentTypePort) ||| 0xf)
      :: rest := by
  unfold MarshalPathPort
  by_cases h1 : link.length > 1 <;> by_cases h2 : portID < 15 <;>
    simp only [h1, h2, decide_True, decide_False, Bool.not_true, Bool.not_false, if_true,
      if_false, Bool.false_eq_true, List.nil_append, List.singleton_append, List.cons_append] <;>
    split <;> exact ⟨_, rfl⟩

theorem MarshalPathData_head (tp : Nat) (data : List Nat) (padded : Bool) :
    ∃ rest, MarshalPathData tp data padded = (SegmentTypeData ||| tp) :: rest := by
  unfold MarshalPathData
  simp only [List.nil_append, List.singleton_append, List.cons_append]
  split <;> exact ⟨_, rfl⟩

theorem port_tag_bits (p : Nat) (hp : p < 15) :
    (SegmentTypePort ||| 0x10 ||| p % 256) &&& 0xE0 = SegmentTypePort ∧
    (SegmentTypePort ||| p % 256) &&& 0xE0 = SegmentTypePort := by
  revert p
  decide

theorem pathParts_stripPath (s : List Nat) : pathParts (stripPath s) = pathParts s := by
  unfold pathParts stripPath ReplaceAll
  simp only [List.filter_filter]
  congr 1
  apply List.filter_congr
  intro c _
  cases h1 : (c != 32) <;> cases h2 : (c != 91) <;> cases h3 : (c != 93) <;> rfl

/-- C15: the string parser and the port encoder agree on port segments. For every
port `p ≤ 14`: (i) for every link value `v` in 0..255, `ParsePath` on
`decimal(p) + "," + decimal(v)` returns, without error, the bytes of
`MarshalPathPort([v], p, false)`; (ii) for every link string `s` of 2 to 255
bytes that contains a `.` and no comma, space or square bracket, `ParsePath` on
`decimal(p) + "," + s` returns, without error, the bytes of
`MarshalPathPort(s, p, false)`. -/
theorem C15_ParsePath_agrees_MarshalPathPort (p v : Nat) (s : List Nat)
    (hp : p ≤ 14) (hv : v ≤ 255) (hlo : 2 ≤ s.length) (hhi : s.length ≤ 255)
    (hdot : 46 ∈ s) (hcomma : 44 ∉ s) (hspace : 32 ∉ s) (hopen : 91 ∉ s) (hclose : 93 ∉ s) :
    ParsePath (decimal p ++ [44] ++ decimal v) =
      Outcome.ret (MarshalPathPort [v] p false) none ∧
    ParsePath (decimal p ++ [44] ++ s) = Outcome.ret (MarshalPathPort s p false) none := by
  have hp255 : p ≤ 255 := by omega
  have hp15 : p < 15 := by omega
  have hps : ∀ x ∈ [p], x ≤ 255 := by
    intro x hx
    rw [List.mem_singleton.1 hx]; exact hp255
  constructor
  · have hvs : ∀ x ∈ [p, v], x ≤ 255 := by
      intro x hx
      rcases List.mem_cons.1 hx with h | h
      · rw [h]; exact hp255
      · rw [List.mem_singleton.1 h]; exact hv
    have hclean : ∀ t ∈ [decimal p, decimal v], 44 ∉ t ∧ 32 ∉ t ∧ 91 ∉ t ∧ 93 ∉ t := by
      intro t ht
      rcases List.mem_cons.1 ht with h | h
      · rw [h]; exact decimal_clean p hp255
      · rw [List.mem_singleton.1 h]; exact decimal_clean v hv
    have hloop := parseParts_decimals [p, v] hvs [] []
    rw [List.append_nil, List.nil_append, parseParts] at hloop
    have henc : MarshalPathPort [v] p false = [p, v] := by
      simp [MarshalPathPort, hp15, port_tag_plain p hp]
    rw [← joinComma_pair, ParsePath_eq, pathParts_joinComma _ (by simp) hclean, henc]
    exact hloop
  · have hclean : ∀ t ∈ [decimal p, s], 44 ∉ t ∧ 32 ∉ t ∧ 91 ∉ t ∧ 93 ∉ t := by
      intro t ht
      rcases List.mem_cons.1 ht with h | h
      · rw [h]; exact decimal_clean p hp255
      · rw [List.mem_singleton.1 h]; exact ⟨hcomma, hspace, hopen, hclose⟩
    have hsl : s.length % 256 = s.length := Nat.mod_eq_of_lt (by omega)
    have h1 : s.length > 1 := by omega
    have henc : MarshalPathPort s p false = [p ||| 16] ++ [s.length] ++ s := by
      simp [MarshalPathPort, hp15, h1, hsl, port_tag_extended p hp]
    have hloop : parseParts [decimal p, s] [] =
        Outcome.ret ([p ||| 16] ++ [s.length] ++ s) none := by
      have h := parseParts_decimals [p] hps [s] []
      rw [List.map_cons, List.map_nil, List.singleton_append] at h
      rw [h, parseParts_ip s hdot [] [] p, or16_lt p hp255, hsl, parseParts]
      simp
    rw [← joinComma_pair, ParsePath_eq, pathParts_joinComma _ (by simp) hclean, henc]
    exact hloop

/-- C15 at port 2 with the link value 7 and the link string `"172.25.58.11"`. -/
theorem C15_ParsePath_agrees_MarshalPathPort_witness :
    ParsePath (goBytes "2,7") = Outcome.ret (MarshalPathPort [7] 2 false) none ∧
    ParsePath (goBytes "2,172.25.58.11") =
      Outcome.ret (MarshalPathPort (goBytes "172.25.58.11") 2 false) none :=
  C15_ParsePath_agrees_MarshalPathPort 2 7 (goBytes "172.25.58.11") (by decide) (by decide)
    (by decide) (by decide) (by decide) (by decide) (by decide) (by decide) (by decide)

/-- C17: for each of the seven `LogicalType` constants `tp`, every 32-bit address
`a` and every padding flag, the first byte `tag` of
`MarshalPathLogical tp a padded` has `tag AND 0x03` equal to 0, 1 or 2 and
`tag AND 0x1C` equal to `tp`, the little-endian value of the last
`2 ^ (tag AND 0x03)` bytes of the output is `a`, and the format bits do not
decrease when the address grows. -/
theorem C17_MarshalPathLogical_recoverable (tp a : Nat) (padded : Bool)
    (htp : tp ∈ logicalTypes) (ha : a < 2 ^ 32) :
    ∃ tag rest, MarshalPathLogical tp a padded = tag :: rest ∧
      (tag &&& 0x03 = 0 ∨ tag &&& 0x03 = 1 ∨ tag &&& 0x03 = 2) ∧
      tag &&& 0x1C = tp ∧
      leValue (lastBytes (2 ^ (tag &&& 0x03)) (MarshalPathLogical tp a padded)) = a ∧
      ∀ (b : Nat) (q : Bool), a ≤ b →
        ∃ tagb restb, MarshalPathLogical tp b q = tagb :: restb ∧
          tag &&& 0x03 ≤ tagb &&& 0x03 := by
  have hfmt : ∀ x : Nat, (if x ≤ 255 then 0 else if x > 255 ∧ x ≤ 65535 then 1 else 2) ≤ 2 := by
    intro x
    split
    · omega
    · split <;> omega
  obtain ⟨rest, hrest⟩ := MarshalPathLogical_head tp a padded
  obtain ⟨hb3, hb1c, _⟩ := logical_tag_bits tp htp _ (hfmt a)
  refine ⟨_, rest, hrest, ?_, hb1c, ?_, ?_⟩
  · rw [hb3]
    split
    · exact Or.inl rfl
    · split
      · exact Or.inr (Or.inl rfl)
      · exact Or.inr (Or.inr rfl)
  · rw [hb3]
    exact MarshalPathLogical_value tp a padded ha
  · intro b q hab
    obtain ⟨restb, hb⟩ := MarshalPathLogical_head tp b q
    obtain ⟨hbb3, _, _⟩ := logical_tag_bits tp htp _ (hfmt b)
    refine ⟨_, restb, hb, ?_⟩
    rw [hb3, hbb3]
    split_ifs <;> omega

/-- C17 at the instance address 300 with padding. -/
theorem C17_MarshalPathLogical_recoverable_witness :
    ∃ tag rest, MarshalPathLogical LogicalTypeInstanceID 300 true = tag :: rest ∧
      (tag &&& 0x03 = 0 ∨ tag &&& 0x03 = 1 ∨ tag &&& 0x03 = 2) ∧
      tag &&& 0x1C = LogicalTypeInstanceID ∧
      leValue (lastBytes (2 ^ (tag &&& 0x03))
        (MarshalPathLogical LogicalTypeInstanceID 300 true)) = 300 ∧
      ∀ (b : Nat) (q : Bool), 300 ≤ b →
        ∃ tagb restb, MarshalPathLogical LogicalTypeInstanceID b q = tagb :: restb ∧
          tag &&& 0x03 ≤ tagb &&& 0x03 :=
  C17_MarshalPathLogical_recoverable LogicalTypeInstanceID 300 true (by decide) (by decide)

/-- C18: for every string `s`, `ParsePath s` ends exactly as `ParsePath` applied
to `s` with every space and square bracket removed: the same bytes, or the same
error. -/
theorem C18_ParsePath_ignores_spaces_brackets (s : List Nat) :
    ParsePath s = ParsePath (stripPath s) := by
  rw [ParsePath_eq, ParsePath_eq, pathParts_stripPath]

/-- C19: the top three bits of the first byte give the segment kind. For every
link, `portID` and padding flag the first byte of `MarshalPathPort` has
`AND 0xE0` equal to `SegmentTypePort`; for each of the seven `LogicalType`
constants, every address and padding flag the first byte of `MarshalPathLogical`
has `AND 0xE0` equal to `SegmentTypeLogical`; for each of the two `DataTypes`
constants, every payload and padding flag the first byte of `MarshalPathData`
has `AND 0xE0` equal to `SegmentTypeData`. -/
theorem C19_segment_kind_bits (link : List Nat) (portID : Nat) (pp : Bool)
    (tl a : Nat) (pl : Bool) (td : Nat) (data : List Nat) (pd : Bool)
    (htl : tl ∈ logicalTypes) (htd : td ∈ dataTypes) :
    (∃ tag rest, MarshalPathPort link portID pp = tag :: rest ∧
      tag &&& 0xE0 = SegmentTypePort) ∧
    (∃ tag rest, MarshalPathLogical tl a pl = tag :: rest ∧
      tag &&& 0xE0 = SegmentTypeLogical) ∧
    (∃ tag rest, MarshalPathData td data pd = tag :: rest ∧
      tag &&& 0xE0 = SegmentTypeData) := by
  refine ⟨?_, ?_, ?_⟩
  · obtain ⟨rest, hrest⟩ := MarshalPathPort_head link portID pp
    refine ⟨_, rest, hrest, ?_⟩
    by_cases h2 : portID < 15
    · rw [if_pos h2]
      split
      · exact (port_tag_bits portID h2).1
      · exact (port_tag_bits portID h2).2
    · rw [if_neg h2]
      split <;> decide
  · obtain ⟨rest, hrest⟩ := MarshalPathLogical_head tl a pl
    have hfmt : (if a ≤ 255 then 0 else if a > 255 ∧ a ≤ 65535 then 1 else 2) ≤ 2 := by
      split
      · omega
      · split <;> omega
    exact ⟨_, rest, hrest, (logical_tag_bits tl htl _ hfmt).2.2⟩
  · obtain ⟨rest, hrest⟩ := MarshalPathData_head td data pd
    have key : ∀ t ∈ dataTypes, (SegmentTypeData ||| t) &&& 0xE0 = SegmentTypeData := by
      decide
    exact ⟨_, rest, hrest, key td htd⟩

/-- C19 at a dotted link on port 2, the instance address 300 and an ANSI
payload. -/
theorem C19_segment_kind_bits_witness :
    (∃ tag rest, MarshalPathPort (goBytes "172.25.58.11") 2 false = tag :: rest ∧
      tag &&& 0xE0 = SegmentTypePort) ∧
    (∃ tag rest, MarshalPathLogical LogicalTypeInstanceID 300 true = tag :: rest ∧
      tag &&& 0xE0 = SegmentTypeLogical) ∧
    (∃ tag rest, MarshalPathData DataTypeANSI [0x61, 0x62, 0x63] true = tag :: rest ∧
      tag &&& 0xE0 = SegmentTypeData) :=
  C19_segment_kind_bits (goBytes "172.25.58.11") 2 false LogicalTypeInstanceID 300 true
    DataTypeANSI [0x61, 0x62, 0x63] true (by decide) (by decide)


end Gologix
